import Mathlib

/-!
Verification of `src/squeue_parser.py` (`parse_squeue_output`).

Strings are embedded as `List Char`.  Python's `str.strip()`, `str.split('\n')`,
the substring test `in`, and the capped whitespace split `str.split(None, 7)`
are each given a direct executable Lean counterpart, and the parser itself is
assembled from them exactly as in the source.  A Python dict literal with the
eight fixed column keys is embedded as an association list in insertion order.
-/

/-- Python whitespace (the ASCII part, which is what `str.strip()` and
`str.split(None)` use on squeue output): space, tab, newline, carriage
return, vertical tab, form feed. -/
def isPySpace (c : Char) : Bool :=
  c = ' ' || c = '\t' || c = '\n' || c = '\r' || c = '\x0B' || c = '\x0C'

/-- Python `s.strip()`: remove leading and trailing whitespace. -/
def pyStrip (s : List Char) : List Char :=
  ((s.dropWhile isPySpace).reverse.dropWhile isPySpace).reverse

/-- Python `s.split('\n')`: split on every newline character; always returns
at least one (possibly empty) piece. -/
def splitNL : List Char → List (List Char)
  | [] => [[]]
  | c :: cs =>
    if c = '\n' then [] :: splitNL cs
    else
      match splitNL cs with
      | [] => [[c]]
      | l :: ls => (c :: l) :: ls

/-- Boolean list-prefix test (helper for the substring test). -/
def isPrefixB : List Char → List Char → Bool
  | [], _ => true
  | _ :: _, [] => false
  | a :: as, b :: bs => a = b && isPrefixB as bs

/-- Python `pat in s`: `pat` occurs as a contiguous substring of `s`. -/
def containsSub (pat : List Char) : List Char → Bool
  | [] => isPrefixB pat []
  | b :: bs => isPrefixB pat (b :: bs) || containsSub pat bs

/-- The header test of line 20 of the source:
`"JOBID" in line and "PARTITION" in line and "USER" in line`. -/
def isHeader (line : List Char) : Bool :=
  containsSub "JOBID".data line && containsSub "PARTITION".data line &&
    containsSub "USER".data line

/-- The header scan of lines 18-22 of the source: index of the first line
satisfying `isHeader`, `none` when there is none (`header_line_index == -1`). -/
def findHeaderIdx : List (List Char) → Option Nat
  | [] => none
  | l :: ls => if isHeader l then some 0 else (findHeaderIdx ls).map (· + 1)

/-- Drop the leading whitespace run. -/
def dropSpaces (s : List Char) : List Char := s.dropWhile isPySpace

/-- The maximal whitespace-free run at the front. -/
def takeWord (s : List Char) : List Char := s.takeWhile (fun c => !isPySpace c)

/-- What remains after the maximal whitespace-free run at the front. -/
def dropWord (s : List Char) : List Char := s.dropWhile (fun c => !isPySpace c)

/-- Python `s.split(None, m)`: split on runs of whitespace, performing at most
`m` splits, so at most `m + 1` tokens result; the final token, when the cap is
reached, is the remainder of the string verbatim (its leading whitespace run
consumed, internal and trailing whitespace kept).  Leading whitespace never
produces an empty first token, and a string of pure whitespace gives `[]`. -/
def pySplitN : Nat → List Char → List (List Char)
  | 0, s => if dropSpaces s = [] then [] else [dropSpaces s]
  | m + 1, s =>
    if dropSpaces s = [] then []
    else takeWord (dropSpaces s) :: pySplitN m (dropWord (dropSpaces s))

def kJOBID : List Char := "JOBID".data
def kPARTITION : List Char := "PARTITION".data
def kNAME : List Char := "NAME".data
def kUSER : List Char := "USER".data
def kST : List Char := "ST".data
def kTIME : List Char := "TIME".data
def kNODES : List Char := "NODES".data
def kNODELIST : List Char := "NODELIST(REASON)".data

/-- The eight dict keys of the record literals at lines 41-50 and 54-63, in
insertion order. -/
def fieldKeys : List (List Char) :=
  [kJOBID, kPARTITION, kNAME, kUSER, kST, kTIME, kNODES, kNODELIST]

/-- A job record: the Python dict with the eight fixed keys, kept as an
association list in insertion order. -/
abbrev JobRecord := List (List Char × List Char)

/-- Build the record dict from the list of field values, positionally. -/
def mkRecord (vals : List (List Char)) : JobRecord := fieldKeys.zip vals

/-- The body of the `for line in data_lines` loop (lines 32-68 of the source):
`some record` when the line contributes a record, `none` when it is skipped
(blank line, or token count other than 7 or 8). -/
def parseDataLine (line : List Char) : Option JobRecord :=
  if pyStrip line = [] then none
  else if (pySplitN 7 line).length = 8 then some (mkRecord (pySplitN 7 line))
  else if (pySplitN 7 line).length = 7 then
    some (mkRecord (pySplitN 7 line ++ [[]]))
  else none

/-- `parse_squeue_output` (lines 3-70 of the source): strip the input, split
into lines, find the header line, and parse every line after it. -/
def parse_squeue_output (input : List Char) : List JobRecord :=
  if splitNL (pyStrip input) = [] then []
  else
    match findHeaderIdx (splitNL (pyStrip input)) with
    | none => []
    | some i => ((splitNL (pyStrip input)).drop (i + 1)).filterMap parseDataLine

/-- Join lines with newline characters: the inverse of `splitNL`, used to
assemble concrete multi-line inputs. -/
def joinNL : List (List Char) → List Char
  | [] => []
  | [l] => l
  | l :: ls => l ++ '\n' :: joinNL ls

/-- The third data line of the inline test at line 123 of the source, whose
trailing content `node[01-04] (Priority)` contains a space. -/
def exLine : List Char :=
  "  789   compute   complex  user3  R      0:10:00      4 node[01-04] (Priority)".data

/-- The first seven tokens of `exLine`. -/
def exToks : List (List Char) :=
  ["789".data, "compute".data, "complex".data, "user3".data, "R".data,
    "0:10:00".data, "4".data]

/-- The header line of the inline tests at line 120 of the source. -/
def exHeader : List Char :=
  "JOBID PARTITION     NAME     USER ST       TIME  NODES NODELIST(REASON)".data

/-- A data line with 8 tokens (line 121 of the source's inline tests). -/
def exRow8 : List Char :=
  "  123   compute   my_job   user1  R      1:00:00      1 node01".data

/-- A data line with only 7 tokens: the trailing field is entirely absent
(line 137 of the source's inline tests). -/
def exRow7 : List Char :=
  "  456   gpu_q     train    user2 PD      0:00:00      2".data

/-- A concrete input whose header sits at index 1, after a garbage line. -/
def exShifted : List Char :=
  joinNL ["garbage first line".data, exHeader, exRow8]

/-! ### Helper lemmas about the string primitives -/

lemma dropSpaces_suffix (s : List Char) : dropSpaces s <:+ s :=
  List.dropWhile_suffix _

lemma dropWord_suffix (s : List Char) : dropWord s <:+ s :=
  List.dropWhile_suffix _

lemma dropSpaces_head_not_space {s : List Char} {c : Char} {cs : List Char}
    (h : dropSpaces s = c :: cs) : isPySpace c = false := by
  have hh := List.head?_dropWhile_not isPySpace s
  rw [show s.dropWhile isPySpace = dropSpaces s from rfl, h] at hh
  simpa using hh

lemma takeWord_not_space {s : List Char} {c : Char} (h : c ∈ takeWord s) :
    isPySpace c = false := by
  have := List.mem_takeWhile_imp h
  simpa using this

lemma takeWord_cons_ne_nil {c : Char} {cs : List Char} (h : isPySpace c = false) :
    takeWord (c :: cs) ≠ [] := by
  unfold takeWord
  rw [List.takeWhile_cons]
  simp [h]

lemma dropSpaces_nil_iff {s : List Char} :
    dropSpaces s = [] ↔ ∀ c ∈ s, isPySpace c = true := by
  unfold dropSpaces
  exact List.dropWhile_eq_nil_iff

lemma pyStrip_nil_iff {s : List Char} : pyStrip s = [] ↔ dropSpaces s = [] := by
  unfold pyStrip
  rw [List.reverse_eq_nil_iff, List.dropWhile_eq_nil_iff]
  constructor
  · intro h
    rcases hd : dropSpaces s with _ | ⟨c, cs⟩
    · rfl
    · have hc : isPySpace c = false := dropSpaces_head_not_space hd
      have hmem : c ∈ (s.dropWhile isPySpace).reverse := by
        rw [List.mem_reverse, show s.dropWhile isPySpace = dropSpaces s from rfl, hd]
        exact List.mem_cons_self _ _
      have := h c hmem
      rw [hc] at this
      exact absurd this (by simp)
  · intro h c hc
    rw [List.mem_reverse, show s.dropWhile isPySpace = dropSpaces s from rfl, h] at hc
    exact absurd hc (List.not_mem_nil c)

lemma pySplitN_nil_iff {m : Nat} {s : List Char} :
    pySplitN m s = [] ↔ dropSpaces s = [] := by
  cases m with
  | zero =>
    unfold pySplitN
    by_cases h : dropSpaces s = [] <;> simp [h]
  | succ m =>
    unfold pySplitN
    by_cases h : dropSpaces s = [] <;> simp [h]

lemma pySplitN_length (m : Nat) (s : List Char) :
    (pySplitN m s).length ≤ m + 1 := by
  induction m generalizing s with
  | zero =>
    unfold pySplitN
    by_cases h : dropSpaces s = [] <;> simp [h]
  | succ m ih =>
    unfold pySplitN
    by_cases h : dropSpaces s = []
    · simp [h]
    · simp only [h, if_false, List.length_cons]
      exact Nat.succ_le_succ (ih _)

/-- Every token at a position strictly below the cap is a nonempty
whitespace-free word. -/
lemma pySplitN_take_words (m : Nat) (s : List Char) :
    ∀ t ∈ (pySplitN m s).take m, t ≠ [] ∧ ∀ c ∈ t, isPySpace c = false := by
  induction m generalizing s with
  | zero => simp
  | succ m ih =>
    intro t ht
    unfold pySplitN at ht
    by_cases h : dropSpaces s = []
    · simp [h] at ht
    · simp only [h, if_false] at ht
      rw [List.take_cons (Nat.succ_pos m)] at ht
      rcases List.mem_cons.mp ht with rfl | hmem
      · refine ⟨?_, fun c hc => takeWord_not_space hc⟩
        rcases hd : dropSpaces s with _ | ⟨c, cs⟩
        · exact absurd hd h
        · exact takeWord_cons_ne_nil (dropSpaces_head_not_space hd)
      · exact ih _ t (by simpa using hmem)

/-- When the split saturates the cap, the final token is a suffix of the
input: the whole remainder of the line, verbatim. -/
lemma pySplitN_last_suffix (m : Nat) (s : List Char) (ts : List (List Char))
    (t : List Char) (h : pySplitN m s = ts ++ [t]) (hlen : ts.length = m) :
    t <:+ s := by
  induction m generalizing s ts with
  | zero =>
    rw [List.length_eq_zero] at hlen
    subst hlen
    unfold pySplitN at h
    by_cases hd : dropSpaces s = []
    · simp [hd] at h
    · simp only [hd, if_false, List.nil_append] at h
      have h1 : dropSpaces s = t := by simpa using h
      rw [← h1]
      exact dropSpaces_suffix s
  | succ m ih =>
    unfold pySplitN at h
    by_cases hd : dropSpaces s = []
    · simp [hd] at h
    · simp only [hd, if_false] at h
      rcases ts with _ | ⟨u, us⟩
      · simp at hlen
      · rw [List.cons_append] at h
        injection h with h1 h2
        have hsub : t <:+ dropWord (dropSpaces s) :=
          ih _ us h2 (by simpa using hlen)
        exact hsub.trans ((dropWord_suffix _).trans (dropSpaces_suffix s))

/-- Every token the capped split produces is nonempty. -/
lemma pySplitN_mem_ne_nil (m : Nat) (s : List Char) :
    ∀ t ∈ pySplitN m s, t ≠ [] := by
  induction m generalizing s with
  | zero =>
    intro t ht
    unfold pySplitN at ht
    by_cases h : dropSpaces s = [] <;> simp [h] at ht
    rw [ht]
    exact h
  | succ m ih =>
    intro t ht
    unfold pySplitN at ht
    by_cases h : dropSpaces s = []
    · simp [h] at ht
    · simp only [h, if_false, List.mem_cons] at ht
      rcases ht with rfl | hmem
      · rcases hd : dropSpaces s with _ | ⟨c, cs⟩
        · exact absurd hd h
        · exact takeWord_cons_ne_nil (dropSpaces_head_not_space hd)
      · exact ih _ t hmem

/-- Every token the capped split produces starts with a non-whitespace
character: the leading whitespace run before it is consumed. -/
lemma pySplitN_mem_head_not_space (m : Nat) (s : List Char) :
    ∀ t ∈ pySplitN m s, ∀ c cs, t = c :: cs → isPySpace c = false := by
  induction m generalizing s with
  | zero =>
    intro t ht c cs hct
    unfold pySplitN at ht
    by_cases h : dropSpaces s = [] <;> simp [h] at ht
    rw [ht] at hct
    exact dropSpaces_head_not_space hct
  | succ m ih =>
    intro t ht c cs hct
    unfold pySplitN at ht
    by_cases h : dropSpaces s = []
    · simp [h] at ht
    · simp only [h, if_false, List.mem_cons] at ht
      rcases ht with rfl | hmem
      · exact takeWord_not_space (hct ▸ List.mem_cons_self c cs)
      · exact ih _ t hmem c cs hct

/-! ### Helper lemmas about the substring test -/

lemma isPrefixB_iff (p s : List Char) : isPrefixB p s = true ↔ p <+: s := by
  induction p generalizing s with
  | nil => simp [isPrefixB]
  | cons a as ih =>
    cases s with
    | nil => simp [isPrefixB]
    | cons b bs =>
      rw [isPrefixB, List.prefix_cons_iff]
      simp only [Bool.and_eq_true, decide_eq_true_eq, ih]
      constructor
      · rintro ⟨rfl, hp⟩
        exact Or.inr ⟨as, rfl, hp⟩
      · rintro (hnil | ⟨t, ht, hp⟩)
        · exact absurd hnil (List.cons_ne_nil a as)
        · injection ht with h1 h2
          exact ⟨h1, by rw [h2]; exact hp⟩

lemma containsSub_iff (p s : List Char) : containsSub p s = true ↔ p <:+: s := by
  induction s with
  | nil =>
    rw [containsSub, isPrefixB_iff, List.infix_nil]
    exact ⟨List.eq_nil_of_prefix_nil, fun h => h ▸ List.nil_prefix⟩
  | cons b bs ih =>
    rw [containsSub, List.infix_cons_iff, Bool.or_eq_true, isPrefixB_iff, ih]

/-- The header test is exactly: the line contains the three marker substrings. -/
lemma isHeader_iff (line : List Char) :
    isHeader line = true ↔
      ("JOBID".data <:+: line ∧ "PARTITION".data <:+: line ∧
        "USER".data <:+: line) := by
  rw [isHeader, Bool.and_eq_true, Bool.and_eq_true, containsSub_iff,
    containsSub_iff, containsSub_iff, and_assoc]

/-! ### Helper lemmas about line splitting and the header scan -/

lemma splitNL_ne_nil (s : List Char) : splitNL s ≠ [] := by
  cases s with
  | nil => simp [splitNL]
  | cons c cs =>
    rw [splitNL]
    by_cases h : c = '\n'
    · simp [h]
    · simp only [h, if_false]
      rcases splitNL cs with _ | ⟨l, ls⟩ <;> simp

lemma splitNL_no_newline {a : List Char} (ha : '\n' ∉ a) : splitNL a = [a] := by
  induction a with
  | nil => rfl
  | cons c cs ih =>
    have hc : ¬c = '\n' := fun h => ha (h ▸ List.mem_cons_self c cs)
    have hcs : '\n' ∉ cs := fun h => ha (List.mem_cons_of_mem c h)
    rw [splitNL, if_neg hc, ih hcs]

lemma splitNL_append {a : List Char} (b : List Char) (ha : '\n' ∉ a) :
    splitNL (a ++ '\n' :: b) = a :: splitNL b := by
  induction a with
  | nil => simp [splitNL]
  | cons c cs ih =>
    have hc : ¬c = '\n' := fun h => ha (h ▸ List.mem_cons_self c cs)
    have hcs : '\n' ∉ cs := fun h => ha (List.mem_cons_of_mem c h)
    rw [List.cons_append, splitNL, if_neg hc, ih hcs]

lemma findHeaderIdx_none_iff (ls : List (List Char)) :
    findHeaderIdx ls = none ↔ ∀ l ∈ ls, isHeader l = false := by
  induction ls with
  | nil => simp [findHeaderIdx]
  | cons l ls ih =>
    rw [findHeaderIdx]
    by_cases h : isHeader l = true
    · simp [h]
    · rw [if_neg h]
      constructor
      · intro hmap x hx
        have hnone : findHeaderIdx ls = none := by
          cases hfi : findHeaderIdx ls with
          | none => rfl
          | some j => rw [hfi] at hmap; simp at hmap
        rcases List.mem_cons.mp hx with rfl | hx
        · exact Bool.eq_false_iff.mpr h
        · exact (ih.mp hnone) x hx
      · intro hall
        have hnone : findHeaderIdx ls = none :=
          ih.mpr (fun x hx => hall x (List.mem_cons_of_mem l hx))
        rw [hnone]
        rfl

lemma findHeaderIdx_some_isHeader (ls : List (List Char)) (i : Nat)
    (h : findHeaderIdx ls = some i) :
    ∃ l, ls.get? i = some l ∧ isHeader l = true := by
  induction ls generalizing i with
  | nil => simp [findHeaderIdx] at h
  | cons l ls ih =>
    rw [findHeaderIdx] at h
    by_cases hl : isHeader l = true
    · rw [if_pos hl] at h
      injection h with h
      exact ⟨l, by rw [← h]; rfl, hl⟩
    · rw [if_neg hl] at h
      rcases Option.map_eq_some.mp h with ⟨j, hj, rfl⟩
      rcases ih j hj with ⟨x, hx, hhx⟩
      exact ⟨x, by simpa using hx, hhx⟩

lemma findHeaderIdx_some_first (ls : List (List Char)) (i : Nat)
    (h : findHeaderIdx ls = some i) :
    ∀ j l, j < i → ls.get? j = some l → isHeader l = false := by
  induction ls generalizing i with
  | nil => simp [findHeaderIdx] at h
  | cons x ls ih =>
    rw [findHeaderIdx] at h
    by_cases hl : isHeader x = true
    · rw [if_pos hl] at h
      injection h with h
      intro j l hj _
      exact absurd hj (by omega)
    · rw [if_neg hl] at h
      rcases Option.map_eq_some.mp h with ⟨j0, hj0, rfl⟩
      intro j l hj hget
      cases j with
      | zero =>
        injection hget with hget
        rw [← hget]
        exact Bool.eq_false_iff.mpr hl
      | succ j =>
        exact ih j0 hj0 j l (Nat.lt_of_succ_lt_succ hj) (by simpa using hget)

/-! ### Helper lemmas about the loop body and the parser -/

lemma pySplitN_strip_ne_nil {line : List Char}
    (h : pySplitN 7 line ≠ []) : ¬pyStrip line = [] :=
  fun hs => h (pySplitN_nil_iff.mpr (pyStrip_nil_iff.mp hs))

lemma parseDataLine_eight {line : List Char} {parts : List (List Char)}
    (h : pySplitN 7 line = parts) (hlen : parts.length = 8) :
    parseDataLine line = some (mkRecord parts) := by
  have hne : ¬pyStrip line = [] := by
    refine pySplitN_strip_ne_nil ?_
    rw [h]
    intro h0
    rw [h0] at hlen
    simp at hlen
  unfold parseDataLine
  rw [if_neg hne, h, if_pos hlen]

lemma parseDataLine_seven {line : List Char} {parts : List (List Char)}
    (h : pySplitN 7 line = parts) (hlen : parts.length = 7) :
    parseDataLine line = some (mkRecord (parts ++ [[]])) := by
  have hne : ¬pyStrip line = [] := by
    refine pySplitN_strip_ne_nil ?_
    rw [h]
    intro h0
    rw [h0] at hlen
    simp at hlen
  unfold parseDataLine
  rw [if_neg hne, h, if_neg (by omega), if_pos hlen]

lemma parseDataLine_skip {line : List Char}
    (h8 : (pySplitN 7 line).length ≠ 8) (h7 : (pySplitN 7 line).length ≠ 7) :
    parseDataLine line = none := by
  unfold parseDataLine
  by_cases hs : pyStrip line = []
  · rw [if_pos hs]
  · rw [if_neg hs, if_neg h8, if_neg h7]

lemma parseDataLine_blank {line : List Char} (h : pyStrip line = []) :
    parseDataLine line = none := by
  unfold parseDataLine
  rw [if_pos h]

/-- Any record the loop body emits is `mkRecord` of eight values whose first
seven are nonempty whitespace-free tokens. -/
lemma parseDataLine_shape {line : List Char} {r : JobRecord}
    (h : parseDataLine line = some r) :
    ∃ vals, r = mkRecord vals ∧ vals.length = 8 ∧
      ∀ v ∈ vals.take 7, v ≠ [] ∧ ∀ c ∈ v, isPySpace c = false := by
  unfold parseDataLine at h
  by_cases hs : pyStrip line = []
  · rw [if_pos hs] at h
    exact absurd h (by simp)
  · rw [if_neg hs] at h
    by_cases h8 : (pySplitN 7 line).length = 8
    · rw [if_pos h8] at h
      injection h with h
      exact ⟨pySplitN 7 line, h.symm, h8,
        fun v hv => pySplitN_take_words 7 line v hv⟩
    · rw [if_neg h8] at h
      by_cases h7 : (pySplitN 7 line).length = 7
      · rw [if_pos h7] at h
        injection h with h
        refine ⟨pySplitN 7 line ++ [[]], h.symm, by simp [h7], fun v hv => ?_⟩
        rw [List.take_append_of_le_length (by omega)] at hv
        exact pySplitN_take_words 7 line v hv
      · rw [if_neg h7] at h
        exact absurd h (by simp)

lemma parse_none_case (input : List Char)
    (h : findHeaderIdx (splitNL (pyStrip input)) = none) :
    parse_squeue_output input = [] := by
  unfold parse_squeue_output
  rw [if_neg (splitNL_ne_nil _), h]

lemma parse_some_case (input : List Char) (i : Nat)
    (h : findHeaderIdx (splitNL (pyStrip input)) = some i) :
    parse_squeue_output input =
      ((splitNL (pyStrip input)).drop (i + 1)).filterMap parseDataLine := by
  unfold parse_squeue_output
  rw [if_neg (splitNL_ne_nil _), h]

lemma mem_parse {input : List Char} {r : JobRecord}
    (h : r ∈ parse_squeue_output input) :
    ∃ line, parseDataLine line = some r := by
  cases hfi : findHeaderIdx (splitNL (pyStrip input)) with
  | none =>
    rw [parse_none_case input hfi] at h
    exact absurd h (List.not_mem_nil r)
  | some i =>
    rw [parse_some_case input i hfi] at h
    rcases List.mem_filterMap.mp h with ⟨a, _, ha⟩
    exact ⟨a, ha⟩

lemma filterMap_parseDataLine_eq_map (rows : List (List Char))
    (h : ∀ r ∈ rows, ∃ rec, parseDataLine r = some rec) :
    rows.filterMap parseDataLine =
      rows.map (fun r => (parseDataLine r).getD []) := by
  induction rows with
  | nil => rfl
  | cons r rows ih =>
    rcases h r (List.mem_cons_self r rows) with ⟨rec, hrec⟩
    rw [List.map_cons]
    rw [show (r :: rows).filterMap parseDataLine =
      rec :: rows.filterMap parseDataLine by simp [List.filterMap_cons, hrec]]
    rw [hrec, Option.getD_some,
      ih (fun x hx => h x (List.mem_cons_of_mem r hx))]

lemma splitNL_joinNL {rows : List (List Char)} (h : ∀ r ∈ rows, '\n' ∉ r)
    (hne : rows ≠ []) : splitNL (joinNL rows) = rows := by
  induction rows with
  | nil => exact absurd rfl hne
  | cons r rows ih =>
    rcases rows with _ | ⟨r2, rows⟩
    · exact splitNL_no_newline (h r (List.mem_cons_self r []))
    · show splitNL (r ++ '\n' :: joinNL (r2 :: rows)) = r :: r2 :: rows
      rw [splitNL_append _ (h r (List.mem_cons_self _ _)),
        ih (fun x hx => h x (List.mem_cons_of_mem r hx)) (List.cons_ne_nil _ _)]

lemma explode_len_succ {α : Type} {l : List α} {n : Nat}
    (h : l.length = n + 1) : ∃ y ys, l = y :: ys ∧ ys.length = n := by
  cases l with
  | nil => exact absurd h (by simp)
  | cons y ys => exact ⟨y, ys, rfl, by simpa using h⟩

lemma list_length_eight {α : Type} {l : List α} (h : l.length = 8) :
    ∃ b1 b2 b3 b4 b5 b6 b7 b8, l = [b1, b2, b3, b4, b5, b6, b7, b8] := by
  obtain ⟨b1, l1, rfl, h1⟩ := explode_len_succ h
  obtain ⟨b2, l2, rfl, h2⟩ := explode_len_succ h1
  obtain ⟨b3, l3, rfl, h3⟩ := explode_len_succ h2
  obtain ⟨b4, l4, rfl, h4⟩ := explode_len_succ h3
  obtain ⟨b5, l5, rfl, h5⟩ := explode_len_succ h4
  obtain ⟨b6, l6, rfl, h6⟩ := explode_len_succ h5
  obtain ⟨b7, l7, rfl, h7⟩ := explode_len_succ h6
  obtain ⟨b8, l8, rfl, h8⟩ := explode_len_succ h7
  rw [List.length_eq_zero] at h8
  exact ⟨b1, b2, b3, b4, b5, b6, b7, b8, by rw [h8]⟩

lemma mkRecord_eight (v0 v1 v2 v3 v4 v5 v6 v7 : List Char) :
    mkRecord [v0, v1, v2, v3, v4, v5, v6, v7] =
      [(kJOBID, v0), (kPARTITION, v1), (kNAME, v2), (kUSER, v3), (kST, v4),
        (kTIME, v5), (kNODES, v6), (kNODELIST, v7)] := rfl

/-- A record value under any key other than NODELIST(REASON) is one of the
first seven values. -/
lemma record_val_mem_take {k v v0 v1 v2 v3 v4 v5 v6 v7 : List Char}
    (h : (k, v) ∈ mkRecord [v0, v1, v2, v3, v4, v5, v6, v7])
    (hk : k ≠ kNODELIST) : v ∈ [v0, v1, v2, v3, v4, v5, v6] := by
  rw [mkRecord_eight] at h
  simp only [List.mem_cons, List.not_mem_nil, or_false, Prod.mk.injEq] at h ⊢
  tauto

/-! ### Claim theorems -/

/-- C1: the capped whitespace split of a data line (line 38 of the source,
`line.split(None, 7)`) yields at most 8 tokens; every token at one of the
first seven positions is a nonempty whitespace-free word; and when an 8th
token exists it is the entire remainder of the line from that point on — a
suffix of the line, internal whitespace intact. -/
theorem C1_capped_tokenization (line : List Char) :
    (pySplitN 7 line).length ≤ 8 ∧
    (∀ t ∈ (pySplitN 7 line).take 7, t ≠ [] ∧ ∀ c ∈ t, isPySpace c = false) ∧
    (∀ ts t, pySplitN 7 line = ts ++ [t] → ts.length = 7 → t <:+ line) :=
  ⟨pySplitN_length 7 line, pySplitN_take_words 7 line,
    fun ts t h hlen => pySplitN_last_suffix 7 line ts t h hlen⟩

/-- C1 at the inline-test line whose trailing content is
`node[01-04] (Priority)`: it stays one token, a suffix of the line. -/
theorem C1_capped_tokenization_witness :
    pySplitN 7 exLine = exToks ++ ["node[01-04] (Priority)".data] ∧
    "node[01-04] (Priority)".data <:+ exLine :=
  ⟨by decide,
    (C1_capped_tokenization exLine).2.2 exToks "node[01-04] (Priority)".data
      (by decide) (by decide)⟩

/-- C2: a data line whose capped split yields exactly 8 tokens is mapped
positionally onto the keys JOBID, PARTITION, NAME, USER, ST, TIME, NODES,
NODELIST(REASON) and emitted; with exactly 7 tokens the first seven keys get
the tokens and NODELIST(REASON) gets the empty string, and it is emitted. -/
theorem C2_positional_mapping (line : List Char) :
    (∀ p0 p1 p2 p3 p4 p5 p6 p7 : List Char,
      pySplitN 7 line = [p0, p1, p2, p3, p4, p5, p6, p7] →
      parseDataLine line = some [(kJOBID, p0), (kPARTITION, p1), (kNAME, p2),
        (kUSER, p3), (kST, p4), (kTIME, p5), (kNODES, p6), (kNODELIST, p7)]) ∧
    (∀ p0 p1 p2 p3 p4 p5 p6 : List Char,
      pySplitN 7 line = [p0, p1, p2, p3, p4, p5, p6] →
      parseDataLine line = some [(kJOBID, p0), (kPARTITION, p1), (kNAME, p2),
        (kUSER, p3), (kST, p4), (kTIME, p5), (kNODES, p6), (kNODELIST, [])]) := by
  constructor
  · intro p0 p1 p2 p3 p4 p5 p6 p7 h
    rw [parseDataLine_eight h (by simp)]
    rfl
  · intro p0 p1 p2 p3 p4 p5 p6 h
    rw [parseDataLine_seven h (by simp)]
    rfl

/-- C2 at the inline-test lines: an 8-token line and a 7-token line each
emit a record, the latter with an empty NODELIST(REASON). -/
theorem C2_positional_mapping_witness :
    parseDataLine exRow8 = some [(kJOBID, "123".data),
      (kPARTITION, "compute".data), (kNAME, "my_job".data),
      (kUSER, "user1".data), (kST, "R".data), (kTIME, "1:00:00".data),
      (kNODES, "1".data), (kNODELIST, "node01".data)] ∧
    parseDataLine exRow7 = some [(kJOBID, "456".data),
      (kPARTITION, "gpu_q".data), (kNAME, "train".data),
      (kUSER, "user2".data), (kST, "PD".data), (kTIME, "0:00:00".data),
      (kNODES, "2".data), (kNODELIST, [])] :=
  ⟨(C2_positional_mapping exRow8).1 "123".data "compute".data "my_job".data
      "user1".data "R".data "1:00:00".data "1".data "node01".data (by decide),
    (C2_positional_mapping exRow7).2 "456".data "gpu_q".data "train".data
      "user2".data "PD".data "0:00:00".data "2".data (by decide)⟩

/-- C5: after the header, a blank (empty or whitespace-only) line is
silently skipped; a line whose token count is neither 7 nor 8 is silently
skipped; and a skipped line leaves the records of the other lines
unchanged.  (The loop body is a total function into `Option`: skipping is
returning `none`, no error is ever raised.) -/
theorem C5_malformed_lines_skipped :
    (∀ line : List Char, pyStrip line = [] → parseDataLine line = none) ∧
    (∀ line : List Char, (pySplitN 7 line).length ≠ 8 →
      (pySplitN 7 line).length ≠ 7 → parseDataLine line = none) ∧
    (∀ pre post : List (List Char), ∀ line : List Char,
      parseDataLine line = none →
      (pre ++ line :: post).filterMap parseDataLine =
        (pre ++ post).filterMap parseDataLine) := by
  refine ⟨fun line h => parseDataLine_blank h,
    fun line h8 h7 => parseDataLine_skip h8 h7,
    fun pre post line h => ?_⟩
  simp [List.filterMap_append, List.filterMap_cons, h]

/-- C5 at concrete lines: a whitespace-only line and a 3-token line are both
skipped, and inserting the blank line between two rows changes nothing. -/
theorem C5_malformed_lines_skipped_witness :
    parseDataLine "  \t ".data = none ∧
    parseDataLine " 12 ab cd ".data = none ∧
    ([exRow8] ++ "  \t ".data :: [exRow7]).filterMap parseDataLine =
      ([exRow8] ++ [exRow7]).filterMap parseDataLine :=
  ⟨C5_malformed_lines_skipped.1 "  \t ".data (by decide),
    C5_malformed_lines_skipped.2.1 " 12 ab cd ".data (by decide) (by decide),
    C5_malformed_lines_skipped.2.2 [exRow8] [exRow7] "  \t ".data
      (C5_malformed_lines_skipped.1 "  \t ".data (by decide))⟩

/-- C6: an input that is empty or all whitespace parses to the empty list
(stripping leaves nothing, the single empty line is no header, and the
fail-closed branch returns `[]`). -/
theorem C6_blank_input (input : List Char)
    (h : ∀ c ∈ input, isPySpace c = true) :
    parse_squeue_output input = [] := by
  have hstrip : pyStrip input = [] :=
    pyStrip_nil_iff.mpr (dropSpaces_nil_iff.mpr h)
  have hnone : findHeaderIdx (splitNL (pyStrip input)) = none := by
    rw [hstrip]
    decide
  exact parse_none_case input hnone

/-- C6 at a concrete whitespace-only input. -/
theorem C6_blank_input_witness :
    parse_squeue_output "  \t\r\n  ".data = [] :=
  C6_blank_input "  \t\r\n  ".data (by decide)

/-- C8: the parser is a pure deterministic function of the input text — two
runs on equal inputs give equal record lists.  (The embedded function reads
no state besides its argument, mirroring the source, which touches no
global state and performs no I/O.) -/
theorem C8_deterministic (s t : List Char) (h : s = t) :
    parse_squeue_output s = parse_squeue_output t := by
  rw [h]

/-- C8 at a concrete input. -/
theorem C8_deterministic_witness :
    parse_squeue_output exShifted = parse_squeue_output exShifted :=
  C8_deterministic exShifted exShifted rfl

/-- C3: the header is the first line (in input order) containing the three
substrings `JOBID`, `PARTITION`, `USER` (plain substring containment);
records come only from lines strictly after it; and when no line qualifies
the parse is the empty list. -/
theorem C3_header_scan :
    (∀ line : List Char, isHeader line = true ↔
      ("JOBID".data <:+: line ∧ "PARTITION".data <:+: line ∧
        "USER".data <:+: line)) ∧
    (∀ input : List Char, ∀ i : Nat,
      findHeaderIdx (splitNL (pyStrip input)) = some i →
      (∃ l, (splitNL (pyStrip input)).get? i = some l ∧ isHeader l = true) ∧
      (∀ j l, j < i → (splitNL (pyStrip input)).get? j = some l →
        isHeader l = false) ∧
      parse_squeue_output input =
        ((splitNL (pyStrip input)).drop (i + 1)).filterMap parseDataLine) ∧
    (∀ input : List Char,
      (∀ l ∈ splitNL (pyStrip input), isHeader l = false) →
      parse_squeue_output input = []) :=
  ⟨isHeader_iff,
    fun input i h => ⟨findHeaderIdx_some_isHeader _ i h,
      findHeaderIdx_some_first _ i h, parse_some_case input i h⟩,
    fun input h => parse_none_case input ((findHeaderIdx_none_iff _).mpr h)⟩

/-- C3 at a concrete input whose header sits at index 1: only the lines
after index 1 are parsed. -/
theorem C3_header_scan_witness :
    parse_squeue_output exShifted =
      ((splitNL (pyStrip exShifted)).drop 2).filterMap parseDataLine :=
  (C3_header_scan.2.1 exShifted 1 (by decide)).2.2

/-- C7: every emitted record has exactly the eight fields JOBID, PARTITION,
NAME, USER, ST, TIME, NODES, NODELIST(REASON), all present and in that
order, and of them only NODELIST(REASON) can carry the empty string. -/
theorem C7_record_shape (input : List Char) (r : JobRecord)
    (h : r ∈ parse_squeue_output input) :
    r.length = 8 ∧ r.map Prod.fst = fieldKeys ∧
    ∀ p ∈ r, p.2 = [] → p.1 = kNODELIST := by
  rcases mem_parse h with ⟨line, hline⟩
  rcases parseDataLine_shape hline with ⟨vals, rfl, hlen, htake⟩
  rcases list_length_eight hlen with ⟨v0, v1, v2, v3, v4, v5, v6, v7, rfl⟩
  have hT : List.take 7 [v0, v1, v2, v3, v4, v5, v6, v7] =
      [v0, v1, v2, v3, v4, v5, v6] := rfl
  rw [hT] at htake
  refine ⟨by rw [mkRecord_eight]; rfl, by rw [mkRecord_eight]; rfl, ?_⟩
  rintro ⟨k, w⟩ hp hp2
  by_cases hk : k = kNODELIST
  · exact hk
  · exact absurd hp2 (htake w (record_val_mem_take hp hk)).1

/-- C7 at a concrete input: the record of the 7-token row still has all
eight keys. -/
theorem C7_record_shape_witness :
    ((mkRecord (pySplitN 7 exRow7 ++ [[]])).length = 8 ∧
      (mkRecord (pySplitN 7 exRow7 ++ [[]])).map Prod.fst = fieldKeys ∧
      ∀ p ∈ mkRecord (pySplitN 7 exRow7 ++ [[]]), p.2 = [] →
        p.1 = kNODELIST) :=
  C7_record_shape (joinNL [exHeader, exRow7])
    (mkRecord (pySplitN 7 exRow7 ++ [[]])) (by decide)

/-- C9: in every emitted record, each of the seven fields other than
NODELIST(REASON) holds a nonempty string without any whitespace character;
only NODELIST(REASON) can be empty or contain whitespace. -/
theorem C9_first_seven_fields_clean (input : List Char) (r : JobRecord)
    (hr : r ∈ parse_squeue_output input) (k v : List Char)
    (hkv : (k, v) ∈ r) (hk : k ≠ kNODELIST) :
    v ≠ [] ∧ ∀ c ∈ v, isPySpace c = false := by
  rcases mem_parse hr with ⟨line, hline⟩
  rcases parseDataLine_shape hline with ⟨vals, rfl, hlen, htake⟩
  rcases list_length_eight hlen with ⟨v0, v1, v2, v3, v4, v5, v6, v7, rfl⟩
  have hT : List.take 7 [v0, v1, v2, v3, v4, v5, v6, v7] =
      [v0, v1, v2, v3, v4, v5, v6] := rfl
  rw [hT] at htake
  exact htake v (record_val_mem_take hkv hk)

/-- C9 at a concrete input: the USER field of the emitted record is a
nonempty whitespace-free string. -/
theorem C9_first_seven_fields_clean_witness :
    "user1".data ≠ [] ∧ ∀ c ∈ "user1".data, isPySpace c = false :=
  C9_first_seven_fields_clean (joinNL [exHeader, exRow8])
    (mkRecord (pySplitN 7 exRow8)) (by decide) kUSER "user1".data
    (by decide) (by decide)

/-- C10: the input is split on `'\n'` only (after one global strip), so a
non-final line keeps a trailing `'\r'`; if such a line yields 8 tokens, the
8th token ends with that `'\r'` (while its leading whitespace run is
consumed, so it starts with a non-whitespace character); if it yields 7
tokens the `'\r'` is absorbed by the whitespace split and no token contains
it. -/
theorem C10_trailing_carriage_return :
    (∀ a b : List Char, '\n' ∉ a → splitNL (a ++ '\n' :: b) = a :: splitNL b) ∧
    (∀ l : List Char, ∀ ts : List (List Char), ∀ t : List Char,
      pySplitN 7 (l ++ ['\r']) = ts ++ [t] → ts.length = 7 →
      t.getLast? = some '\r' ∧ ∀ c cs, t = c :: cs → isPySpace c = false) ∧
    (∀ l : List Char, (pySplitN 7 (l ++ ['\r'])).length = 7 →
      ∀ t ∈ pySplitN 7 (l ++ ['\r']), '\r' ∉ t) := by
  refine ⟨fun a b ha => splitNL_append b ha, ?_, ?_⟩
  · intro l ts t h hlen
    have hmem : t ∈ pySplitN 7 (l ++ ['\r']) := by
      rw [h]
      exact List.mem_append_right ts (List.mem_singleton_self t)
    have hne : t ≠ [] := pySplitN_mem_ne_nil 7 _ t hmem
    have hsuf : t <:+ l ++ ['\r'] := pySplitN_last_suffix 7 _ ts t h hlen
    constructor
    · rcases hsuf with ⟨p, hp⟩
      cases hg : t.getLast? with
      | none => exact absurd (List.getLast?_eq_none_iff.mp hg) hne
      | some x =>
        have h1 : (p ++ t).getLast? = some x := by
          rw [List.getLast?_append, hg]
          rfl
        rw [hp, List.getLast?_append] at h1
        have h2 : some '\r' = some x := h1
        injection h2 with h2
        rw [← h2]
    · exact pySplitN_mem_head_not_space 7 _ t hmem
  · intro l hlen t ht hc
    have ht7 : t ∈ (pySplitN 7 (l ++ ['\r'])).take 7 := by
      rw [List.take_of_length_le (le_of_eq hlen)]
      exact ht
    exact absurd ((pySplitN_take_words 7 _ t ht7).2 '\r' hc) (by decide)

/-- C10 at concrete data: a `\r`-terminated non-final line survives the
newline split intact; an 8-token `\r`-terminated line puts the `'\r'` at the
end of its 8th token; a 7-token one leaves no token containing `'\r'`. -/
theorem C10_trailing_carriage_return_witness :
    splitNL ("row one\r".data ++ '\n' :: "row two".data) =
      "row one\r".data :: splitNL "row two".data ∧
    ("h i\r".data).getLast? = some '\r' ∧
    '\r' ∉ "g".data :=
  ⟨C10_trailing_carriage_return.1 "row one\r".data "row two".data (by decide),
    (C10_trailing_carriage_return.2.1 "a b c d e f g h i".data
      ["a".data, "b".data, "c".data, "d".data, "e".data, "f".data, "g".data]
      "h i\r".data (by decide) (by decide)).1,
    C10_trailing_carriage_return.2.2 "a b c d e f g".data (by decide)
      "g".data (by decide)⟩

/-- C4: a valid header line followed by N well-formed data lines (each
tokenizing to 7 or 8 tokens) parses to exactly N records, in the order of
the rows; the output is literally the row-wise map of the loop body. -/
theorem C4_count_and_order (header : List Char) (rows : List (List Char))
    (hH : isHeader header = true) (hnlH : '\n' ∉ header)
    (hnlR : ∀ r ∈ rows, '\n' ∉ r)
    (hstrip : pyStrip (joinNL (header :: rows)) = joinNL (header :: rows))
    (hwf : ∀ r ∈ rows,
      (pySplitN 7 r).length = 7 ∨ (pySplitN 7 r).length = 8) :
    (parse_squeue_output (joinNL (header :: rows))).length = rows.length ∧
    parse_squeue_output (joinNL (header :: rows)) =
      rows.map (fun r => (parseDataLine r).getD []) := by
  have hlines : splitNL (pyStrip (joinNL (header :: rows))) = header :: rows := by
    rw [hstrip]
    refine splitNL_joinNL ?_ (List.cons_ne_nil _ _)
    intro r hr
    rcases List.mem_cons.mp hr with rfl | hr
    · exact hnlH
    · exact hnlR r hr
  have hidx : findHeaderIdx (splitNL (pyStrip (joinNL (header :: rows)))) =
      some 0 := by
    rw [hlines]
    show (if isHeader header = true then some 0
      else (findHeaderIdx rows).map (· + 1)) = some 0
    rw [if_pos hH]
  have hsome : ∀ r ∈ rows, ∃ rec, parseDataLine r = some rec := by
    intro r hr
    rcases hwf r hr with h7 | h8
    · exact ⟨_, parseDataLine_seven rfl h7⟩
    · exact ⟨_, parseDataLine_eight rfl h8⟩
  rw [parse_some_case _ 0 hidx, hlines,
    show (header :: rows).drop 1 = rows from rfl,
    filterMap_parseDataLine_eq_map rows hsome]
  exact ⟨by simp, rfl⟩

set_option maxRecDepth 4000 in
/-- C4 at a concrete input with two well-formed rows: two records, in row
order. -/
theorem C4_count_and_order_witness :
    (parse_squeue_output (joinNL (exHeader :: [exRow8, exRow7]))).length =
      [exRow8, exRow7].length :=
  (C4_count_and_order exHeader [exRow8, exRow7] (by decide) (by decide)
    (by decide) (by decide) (by decide)).1
